import Mathlib

/-!
Verification of the RS485 framing protocol (rs485/rs485.py).

The Python class `RS485` is shallowly embedded as follows.

* The transport callbacks `fWrite` / `fAvailable` / `fRead` are replaced by
  explicit byte lists: the transmitter returns the list of bytes it writes,
  and the receive loop `update` takes the list of currently available input
  bytes as an argument and folds the per-byte processing over it.
* Machine bytes are `Nat`, with explicit bit operations exactly as in the
  source (`>>>`, `&&&`, `|||`, `^^^`); Python ints are unbounded, so `Nat`
  is a faithful carrier.
* The wall clock (`datetime.datetime.now()`) is abstracted as a `Nat`
  parameter `t` passed to the processing functions; the only thing the code
  does with it is store it in `_startTime` when a start marker arrives.
* The mutable object state (`_data`, `state`, `_firstNibble`, `errorCount`,
  `_packets`, `_startTime`) becomes the structure `Receiver`, and every
  method becomes a state-passing function.
* The fallible `getPacket` (Python `list.pop(0)`, raising on empty) returns
  an `Option` for the popped packet.
-/

namespace RS485

/-- Start-of-text marker byte, `RS485._STX = 2` in the source. -/
def STX : Nat := 2

/-- End-of-text marker byte, `RS485._ETX = 3` in the source. -/
def ETX : Nat := 3

/-- Maximum payload length, `RS485._MAX_LENGTH = 255` in the source. -/
def MAX_LENGTH : Nat := 255

/-- Receiver state enumeration, class `State` in the source:
`waiting` (waiting for STX), `receiveData` (ETX not received, receiving
data), `receiveCrc` (ETX received, receiving CRC). -/
inductive State where
  | waiting
  | receiveData
  | receiveCrc
deriving DecidableEq, Repr

/-- The mutable state of one `RS485` object:
`data` is `_data` (bytes received for the current packet), `state` is
`state`, `firstNibble` is `_firstNibble` (`None` or the first decoded
nibble), `errorCount` is `errorCount`, `packets` is `_packets` (the list of
completely received packets), `startTime` is `_startTime` (abstract
timestamp, `None` until the first start marker). -/
structure Receiver where
  data : List Nat
  state : State
  firstNibble : Option Nat
  errorCount : Nat
  packets : List (List Nat)
  startTime : Option Nat
deriving DecidableEq, Repr

/-- The state built by `__init__`: empty packet list, zero errors, no start
time, and then `reset()` (empty data, `waiting`, no pending nibble). -/
def initReceiver : Receiver :=
  { data := [], state := State.waiting, firstNibble := none,
    errorCount := 0, packets := [], startTime := none }

/-- Method `reset`: discards the partially received packet and returns to
`State.waiting`; clears `_data` and `_firstNibble`.  It does not touch
`errorCount`, `_packets` or `_startTime`. -/
def reset (s : Receiver) : Receiver :=
  { s with data := [], state := State.waiting, firstNibble := none }

/-- The inner 8-iteration bit loop of `_crc8` for a single byte: the first
argument counts the remaining iterations (8 at the top-level call).  Each
iteration computes `mix = (crc ^ byte) & 0x01`, shifts `crc` right, XORs
with `0x8C` when `mix` is non-zero, and shifts `byte` right. -/
def crc8Byte : Nat → Nat → Nat → Nat
  | 0, crc, _ => crc
  | n + 1, crc, byte =>
    let mix := (crc ^^^ byte) &&& 0x01
    let crc1 := crc >>> 1
    let crc2 := if mix ≠ 0 then crc1 ^^^ 0x8C else crc1
    crc8Byte n crc2 (byte >>> 1)

/-- Method `_crc8`: 8-bit CRC of a byte sequence, accumulator starting
at 0, folding the 8-bit inner loop over the data. -/
def crc8 (data : List Nat) : Nat :=
  data.foldl (fun crc byte => crc8Byte 8 crc byte) 0

/-- Method `_sendComplemented`: the two wire bytes written for one raw
byte — first the high nibble, then the low nibble, each sent as
`(nibble << 4) | (nibble ^ 0x0F)`. -/
def sendComplemented (byte : Nat) : List Nat :=
  let hi := byte >>> 4
  let lo := byte &&& 0x0F
  [(hi <<< 4) ||| (hi ^^^ 0x0F), (lo <<< 4) ||| (lo ^^^ 0x0F)]

/-- Method `sendMsg`: the full wire image of a packet — STX, the
complemented nibble pairs of every data byte, ETX, then the complemented
nibble pair of the CRC of the data. -/
def sendMsg (data : List Nat) : List Nat :=
  STX :: (data.map sendComplemented).flatten ++ ETX :: sendComplemented (crc8 data)

/-- The body of the `while` loop of `update`, processing one input byte
`byte` at abstract time `t`.  This is a direct transcription of the
source: STX handling (record start time, count a synchronization error
when not waiting, full reset, enter `receiveData`); ETX handling (enter
`receiveCrc` when no nibble is pending, otherwise error and reset);
ignoring bytes while waiting; the structural nibble check; pairing of
nibbles; appending to the buffer with the 255-byte overflow check; and
the CRC comparison that promotes the buffer to a finished packet. -/
def processByte (t : Nat) (s : Receiver) (byte : Nat) : Receiver :=
  if byte = STX then
    let s1 := { s with startTime := some t }
    let s2 := if s1.state ≠ State.waiting
              then { s1 with errorCount := s1.errorCount + 1 }
              else s1
    { reset s2 with state := State.receiveData }
  else if byte = ETX then
    if s.firstNibble = none then
      { s with state := State.receiveCrc }
    else
      reset { s with errorCount := s.errorCount + 1 }
  else if s.state = State.waiting then
    s
  else if (byte >>> 4) ≠ ((byte &&& 0x0F) ^^^ 0x0F) then
    reset { s with errorCount := s.errorCount + 1 }
  else
    let nib := byte >>> 4
    match s.firstNibble with
    | none => { s with firstNibble := some nib }
    | some fn =>
      let b := nib ||| (fn <<< 4)
      let s1 := { s with firstNibble := none }
      if s1.state = State.receiveData then
        if s1.data.length < MAX_LENGTH then
          { s1 with data := s1.data ++ [b] }
        else
          reset { s1 with errorCount := s1.errorCount + 1 }
      else
        if crc8 s1.data ≠ b then
          reset { s1 with errorCount := s1.errorCount + 1 }
        else
          { s1 with packets := s1.packets ++ [s1.data], state := State.waiting }

/-- The drain loop of `update`: process every currently available input
byte in order. -/
def processBytes (t : Nat) (s : Receiver) (input : List Nat) : Receiver :=
  input.foldl (processByte t) s

/-- Method `available`: true when at least one complete packet is ready. -/
def available (s : Receiver) : Bool :=
  decide (0 < s.packets.length)

/-- Method `update`: drain all available input bytes, then report whether
at least one complete packet is ready. -/
def update (t : Nat) (s : Receiver) (input : List Nat) : Receiver × Bool :=
  let s1 := processBytes t s input
  (s1, available s1)

/-- Method `getPacket` (`self._packets.pop(0)`): the oldest complete
packet (`none` when the queue is empty, where Python raises) together with
the state holding the remaining queue. -/
def getPacket (s : Receiver) : Option (List Nat) × Receiver :=
  (s.packets.head?, { s with packets := s.packets.tail })

/-- Method `isPacketStarted`: true when the state differs from waiting. -/
def isPacketStarted (s : Receiver) : Bool :=
  decide (s.state ≠ State.waiting)

/-- One step of the reference CRC-8 description taken from the spec: if
(accumulator XOR current bit) has its least-significant bit set, shift
right and XOR with 0x8C, otherwise only shift right. -/
def crc8SpecStep (crc bit : Nat) : Nat :=
  if (crc ^^^ bit) &&& 1 = 1 then (crc >>> 1) ^^^ 0x8C else crc >>> 1

/-- The 8 bits of a byte, least-significant first, as 0/1 values. -/
def bitsLSBFirst (byte : Nat) : List Nat :=
  (List.range 8).map fun i => (byte >>> i) &&& 1

/-- The reference CRC-8 algorithm as worded in the spec: accumulator
starts at 0; for each input byte its 8 bits are consumed
least-significant-first through `crc8SpecStep`. -/
def crc8Spec (data : List Nat) : Nat :=
  data.foldl (fun crc byte => (bitsLSBFirst byte).foldl crc8SpecStep crc) 0

/-- The 16 wire byte values that `_sendComplemented` can emit, as listed
in its docstring. -/
def wireAlphabet : List Nat :=
  [0x0F, 0x1E, 0x2D, 0x3C, 0x4B, 0x5A, 0x69, 0x78,
   0x87, 0x96, 0xA5, 0xB4, 0xC3, 0xD2, 0xE1, 0xF0]

/-! Bit-level facts, established by exhaustive evaluation. -/

set_option maxRecDepth 4096 in
/-- Splitting a byte below 256 into nibbles and recombining low-first, as
the receiver does (`byte |= firstNibble << 4`). -/
theorem byte_split : ∀ b : Nat, b < 256 →
    b >>> 4 < 16 ∧ b &&& 0x0F < 16 ∧
    ((b &&& 0x0F) ||| ((b >>> 4) <<< 4)) = b := by
  decide

/-- Facts about the complemented-nibble wire byte of a nibble `n < 16`:
it is neither marker, and both sides of the receiver's structural check
evaluate to `n`. -/
theorem encNib_facts : ∀ n : Nat, n < 16 →
    ((n <<< 4) ||| (n ^^^ 0x0F)) ≠ 2 ∧
    ((n <<< 4) ||| (n ^^^ 0x0F)) ≠ 3 ∧
    (((n <<< 4) ||| (n ^^^ 0x0F)) >>> 4) = n ∧
    ((((n <<< 4) ||| (n ^^^ 0x0F)) &&& 0x0F) ^^^ 0x0F) = n := by
  decide

/-! Step lemmas: the value of `processByte` in each branch of the source,
stated over an explicit receiver record. -/

/-- Step lemma for a start marker: start time recorded, synchronization
error counted when not waiting, full reset, state `receiveData`. -/
theorem processByte_stx (t : Nat) (d : List Nat) (st : State)
    (fn : Option Nat) (ec : Nat) (pk : List (List Nat)) (stt : Option Nat) :
    processByte t ⟨d, st, fn, ec, pk, stt⟩ 2 =
      ⟨[], State.receiveData, none,
       if st = State.waiting then ec else ec + 1, pk, some t⟩ := by
  by_cases h : st = State.waiting <;> simp [processByte, STX, reset, h]

/-- Step lemma for an end marker with no pending nibble: only the state
changes, to `receiveCrc`. -/
theorem processByte_etx_none (t : Nat) (d : List Nat) (st : State)
    (ec : Nat) (pk : List (List Nat)) (stt : Option Nat) :
    processByte t ⟨d, st, none, ec, pk, stt⟩ 3 =
      ⟨d, State.receiveCrc, none, ec, pk, stt⟩ := by
  rfl

/-- Step lemma for an end marker between two nibbles: error and reset. -/
theorem processByte_etx_pending (t : Nat) (d : List Nat) (st : State)
    (n : Nat) (ec : Nat) (pk : List (List Nat)) (stt : Option Nat) :
    processByte t ⟨d, st, some n, ec, pk, stt⟩ 3 =
      ⟨[], State.waiting, none, ec + 1, pk, stt⟩ := by
  rfl

/-- Step lemma for a non-marker byte while waiting: ignored. -/
theorem processByte_waiting (t : Nat) (s : Receiver) (b : Nat)
    (hb2 : b ≠ 2) (hb3 : b ≠ 3) (hst : s.state = State.waiting) :
    processByte t s b = s := by
  simp only [processByte, STX, ETX, hb2, hb3, hst, if_false, if_true,
    if_neg hb2, if_neg hb3, if_pos hst]

/-- Step lemma for a structurally invalid non-marker byte outside
waiting: error and reset. -/
theorem processByte_invalid (t : Nat) (d : List Nat) (st : State)
    (fn : Option Nat) (ec : Nat) (pk : List (List Nat)) (stt : Option Nat)
    (b : Nat) (hb2 : b ≠ 2) (hb3 : b ≠ 3) (hst : st ≠ State.waiting)
    (hbad : (b >>> 4) ≠ ((b &&& 0x0F) ^^^ 0x0F)) :
    processByte t ⟨d, st, fn, ec, pk, stt⟩ b =
      ⟨[], State.waiting, none, ec + 1, pk, stt⟩ := by
  simp only [processByte, STX, ETX, if_neg hb2, if_neg hb3, if_neg hst,
    if_pos hbad, reset]

/-- Step lemma for a valid first nibble outside waiting: stored as
pending, nothing else changes. -/
theorem processByte_nib1 (t : Nat) (d : List Nat) (st : State)
    (ec : Nat) (pk : List (List Nat)) (stt : Option Nat)
    (b : Nat) (hb2 : b ≠ 2) (hb3 : b ≠ 3) (hst : st ≠ State.waiting)
    (hok : (b >>> 4) = ((b &&& 0x0F) ^^^ 0x0F)) :
    processByte t ⟨d, st, none, ec, pk, stt⟩ b =
      ⟨d, st, some (b >>> 4), ec, pk, stt⟩ := by
  simp only [processByte, STX, ETX, if_neg hb2, if_neg hb3, if_neg hst,
    if_neg (by simp [hok] : ¬ (b >>> 4) ≠ ((b &&& 0x0F) ^^^ 0x0F))]

/-- Step lemma for a valid second nibble in `receiveData` with room in
the buffer: the assembled byte is appended. -/
theorem processByte_data_append (t : Nat) (d : List Nat)
    (n : Nat) (ec : Nat) (pk : List (List Nat)) (stt : Option Nat)
    (b : Nat) (hb2 : b ≠ 2) (hb3 : b ≠ 3)
    (hok : (b >>> 4) = ((b &&& 0x0F) ^^^ 0x0F)) (hlen : d.length < 255) :
    processByte t ⟨d, State.receiveData, some n, ec, pk, stt⟩ b =
      ⟨d ++ [(b >>> 4) ||| (n <<< 4)], State.receiveData, none,
       ec, pk, stt⟩ := by
  simp only [processByte, STX, ETX, MAX_LENGTH, if_neg hb2, if_neg hb3,
    if_neg (by simp : State.receiveData ≠ State.waiting),
    if_neg (by simp [hok] : ¬ (b >>> 4) ≠ ((b &&& 0x0F) ^^^ 0x0F))]
  simp [hlen]

/-- Step lemma for a valid second nibble in `receiveData` with a full
buffer: overflow error and reset. -/
theorem processByte_overflow (t : Nat) (d : List Nat)
    (n : Nat) (ec : Nat) (pk : List (List Nat)) (stt : Option Nat)
    (b : Nat) (hb2 : b ≠ 2) (hb3 : b ≠ 3)
    (hok : (b >>> 4) = ((b &&& 0x0F) ^^^ 0x0F)) (hlen : ¬ d.length < 255) :
    processByte t ⟨d, State.receiveData, some n, ec, pk, stt⟩ b =
      ⟨[], State.waiting, none, ec + 1, pk, stt⟩ := by
  simp only [processByte, STX, ETX, MAX_LENGTH, if_neg hb2, if_neg hb3,
    if_neg (by simp : State.receiveData ≠ State.waiting),
    if_neg (by simp [hok] : ¬ (b >>> 4) ≠ ((b &&& 0x0F) ^^^ 0x0F))]
  simp [hlen, reset]

/-- Step lemma for a valid second nibble in `receiveCrc` whose assembled
byte matches the CRC of the buffer: the buffer is promoted to a finished
packet and the state returns to waiting; the buffer itself is kept. -/
theorem processByte_crc_ok (t : Nat) (d : List Nat)
    (n : Nat) (ec : Nat) (pk : List (List Nat)) (stt : Option Nat)
    (b : Nat) (hb2 : b ≠ 2) (hb3 : b ≠ 3)
    (hok : (b >>> 4) = ((b &&& 0x0F) ^^^ 0x0F))
    (hcrc : crc8 d = ((b >>> 4) ||| (n <<< 4))) :
    processByte t ⟨d, State.receiveCrc, some n, ec, pk, stt⟩ b =
      ⟨d, State.waiting, none, ec, pk ++ [d], stt⟩ := by
  simp only [processByte, STX, ETX, if_neg hb2, if_neg hb3,
    if_neg (by simp : State.receiveCrc ≠ State.waiting),
    if_neg (by simp [hok] : ¬ (b >>> 4) ≠ ((b &&& 0x0F) ^^^ 0x0F))]
  simp [hcrc]

/-- Step lemma for a valid second nibble in `receiveCrc` whose assembled
byte does not match the CRC of the buffer: error and reset. -/
theorem processByte_crc_bad (t : Nat) (d : List Nat)
    (n : Nat) (ec : Nat) (pk : List (List Nat)) (stt : Option Nat)
    (b : Nat) (hb2 : b ≠ 2) (hb3 : b ≠ 3)
    (hok : (b >>> 4) = ((b &&& 0x0F) ^^^ 0x0F))
    (hcrc : crc8 d ≠ ((b >>> 4) ||| (n <<< 4))) :
    processByte t ⟨d, State.receiveCrc, some n, ec, pk, stt⟩ b =
      ⟨[], State.waiting, none, ec + 1, pk, stt⟩ := by
  simp only [processByte, STX, ETX, if_neg hb2, if_neg hb3,
    if_neg (by simp : State.receiveCrc ≠ State.waiting),
    if_neg (by simp [hok] : ¬ (b >>> 4) ≠ ((b &&& 0x0F) ^^^ 0x0F))]
  simp [hcrc, reset]

/-! Pipeline lemmas: what the receive loop does to whole fragments of the
wire image produced by the transmitter. -/

/-- Processing a concatenation is processing the parts in sequence. -/
theorem processBytes_append (t : Nat) (s : Receiver) (l1 l2 : List Nat) :
    processBytes t s (l1 ++ l2) = processBytes t (processBytes t s l1) l2 := by
  simp only [processBytes, List.foldl_append]

/-- The wire image of `sendComplemented`, named nibble-wise. -/
theorem sendComplemented_eq (b : Nat) :
    sendComplemented b =
      [((b >>> 4) <<< 4) ||| ((b >>> 4) ^^^ 0x0F),
       ((b &&& 0x0F) <<< 4) ||| ((b &&& 0x0F) ^^^ 0x0F)] := rfl

/-- Processing the two wire bytes of one data byte while in
`receiveData` with no pending nibble and room in the buffer appends
exactly that byte. -/
theorem processPair_data (t b : Nat) (hb : b < 256) (d : List Nat)
    (hd : d.length < 255) (ec : Nat) (pk : List (List Nat))
    (stt : Option Nat) :
    processBytes t ⟨d, State.receiveData, none, ec, pk, stt⟩
        (sendComplemented b) =
      ⟨d ++ [b], State.receiveData, none, ec, pk, stt⟩ := by
  obtain ⟨hhi, hlo, hjoin⟩ := byte_split b hb
  obtain ⟨h2a, h3a, hra, hca⟩ := encNib_facts (b >>> 4) hhi
  obtain ⟨h2b, h3b, hrb, hcb⟩ := encNib_facts (b &&& 0x0F) hlo
  rw [sendComplemented_eq]
  show processByte t (processByte t ⟨d, State.receiveData, none, ec, pk, stt⟩
      (((b >>> 4) <<< 4) ||| ((b >>> 4) ^^^ 0x0F)))
      (((b &&& 0x0F) <<< 4) ||| ((b &&& 0x0F) ^^^ 0x0F)) = _
  rw [processByte_nib1 t d State.receiveData ec pk stt _ h2a h3a
    (by simp) (by rw [hra, hca]), hra]
  rw [processByte_data_append t d (b >>> 4) ec pk stt _ h2b h3b
    (by rw [hrb, hcb]) hd, hrb, hjoin]

/-- Processing the nibble-encoded image of a whole payload while in
`receiveData` with no pending nibble appends the payload to the buffer,
provided the combined length stays within the 255-byte bound. -/
theorem processBytes_dataPhase (t : Nat) (payload : List Nat) :
    ∀ d : List Nat, ∀ ec : Nat, ∀ pk : List (List Nat), ∀ stt : Option Nat,
    d.length + payload.length ≤ 255 → (∀ b ∈ payload, b < 256) →
    processBytes t ⟨d, State.receiveData, none, ec, pk, stt⟩
        ((payload.map sendComplemented).flatten) =
      ⟨d ++ payload, State.receiveData, none, ec, pk, stt⟩ := by
  induction payload with
  | nil => intro d ec pk stt _ _; simp [processBytes]
  | cons b rest ih =>
    intro d ec pk stt hlen hb
    rw [List.map_cons, List.flatten_cons, processBytes_append]
    rw [processPair_data t b (hb b (by simp)) d (by simp at hlen; omega)
      ec pk stt]
    rw [ih (d ++ [b]) ec pk stt (by simp at hlen ⊢; omega)
      (fun x hx => hb x (by simp [hx]))]
    simp

/-- The inner CRC loop keeps the accumulator below 256. -/
theorem crc8Byte_lt : ∀ n crc byte : Nat, crc < 256 →
    crc8Byte n crc byte < 256 := by
  intro n
  induction n with
  | zero => intro crc byte h; exact h
  | succ m ih =>
    intro crc byte h
    show crc8Byte m _ _ < 256
    apply ih
    have hshift : crc >>> 1 < 256 := by
      rw [Nat.shiftRight_one]
      exact lt_of_le_of_lt (Nat.div_le_self crc 2) h
    by_cases hmix : (crc ^^^ byte) &&& 0x01 ≠ 0
    · simp only [if_pos hmix]
      have : (256 : Nat) = 2 ^ 8 := by norm_num
      rw [this] at hshift ⊢
      exact Nat.xor_lt_two_pow hshift (by norm_num)
    · simp only [if_neg hmix]; exact hshift

/-- The CRC of any byte sequence is a byte. -/
theorem crc8_lt (data : List Nat) : crc8 data < 256 := by
  rw [crc8]
  have h : ∀ l : List Nat, ∀ crc : Nat, crc < 256 →
      l.foldl (fun crc byte => crc8Byte 8 crc byte) crc < 256 := by
    intro l
    induction l with
    | nil => intro crc h; exact h
    | cons b rest ih =>
      intro crc h
      exact ih (crc8Byte 8 crc b) (crc8Byte_lt 8 crc b h)
  exact h data 0 (by norm_num)

/-- Processing the two wire bytes of the correct CRC while in
`receiveCrc` with no pending nibble promotes the buffer to a finished
packet; the buffer itself is kept. -/
theorem processPair_crc (t : Nat) (d : List Nat) (ec : Nat)
    (pk : List (List Nat)) (stt : Option Nat) :
    processBytes t ⟨d, State.receiveCrc, none, ec, pk, stt⟩
        (sendComplemented (crc8 d)) =
      ⟨d, State.waiting, none, ec, pk ++ [d], stt⟩ := by
  obtain ⟨hhi, hlo, hjoin⟩ := byte_split (crc8 d) (crc8_lt d)
  obtain ⟨h2a, h3a, hra, hca⟩ := encNib_facts (crc8 d >>> 4) hhi
  obtain ⟨h2b, h3b, hrb, hcb⟩ := encNib_facts (crc8 d &&& 0x0F) hlo
  rw [sendComplemented_eq]
  show processByte t (processByte t ⟨d, State.receiveCrc, none, ec, pk, stt⟩
      ((crc8 d >>> 4 <<< 4) ||| (crc8 d >>> 4 ^^^ 0x0F)))
      ((crc8 d &&& 0x0F) <<< 4 ||| ((crc8 d &&& 0x0F) ^^^ 0x0F)) = _
  rw [processByte_nib1 t d State.receiveCrc ec pk stt _ h2a h3a
    (by simp) (by rw [hra, hca]), hra]
  rw [processByte_crc_ok t d (crc8 d >>> 4) ec pk stt _ h2b h3b
    (by rw [hrb, hcb]) (by rw [hrb, hjoin])]

/-- Master round-trip lemma: from any receiver state, processing the
complete wire image of a payload (length at most 255, bytes below 256)
enqueues exactly that payload, returns the state machine to waiting with
no pending nibble, records the start time, leaves the buffer holding the
payload, and adds one synchronization error exactly when the receiver was
not waiting when the start marker arrived. -/
theorem processBytes_sendMsg (t : Nat) (s : Receiver) (payload : List Nat)
    (hlen : payload.length ≤ 255) (hb : ∀ b ∈ payload, b < 256) :
    processBytes t s (sendMsg payload) =
      ⟨payload, State.waiting, none,
       (if s.state = State.waiting then s.errorCount else s.errorCount + 1),
       s.packets ++ [payload], some t⟩ := by
  obtain ⟨d, st, fn, ec, pk, stt⟩ := s
  rw [sendMsg]
  show processBytes t _ (STX :: ((payload.map sendComplemented).flatten ++
    ETX :: sendComplemented (crc8 payload))) = _
  rw [processBytes, List.foldl_cons]
  show processBytes t (processByte t ⟨d, st, fn, ec, pk, stt⟩ 2) _ = _
  rw [processByte_stx, processBytes_append]
  rw [processBytes_dataPhase t payload [] _ pk (some t) (by simpa) hb]
  rw [processBytes, List.foldl_cons]
  show processBytes t (processByte t
    ⟨[] ++ payload, State.receiveData, none, _, pk, some t⟩ 3) _ = _
  rw [processByte_etx_none]
  rw [show processBytes t
      ⟨[] ++ payload, State.receiveCrc, none,
       if st = State.waiting then ec else ec + 1, pk, some t⟩
      (sendComplemented (crc8 payload)) =
    processBytes t
      ⟨payload, State.receiveCrc, none,
       if st = State.waiting then ec else ec + 1, pk, some t⟩
      (sendComplemented (crc8 payload)) from by simp]
  rw [processPair_crc]

/-! Lemmas for the CRC reference comparison. -/

/-- Masking with 1 looks only at the low bit of the second XOR operand. -/
theorem and_one_xor_and_one (c b : Nat) :
    (c ^^^ b) &&& 1 = (c ^^^ (b &&& 1)) &&& 1 := by
  rw [Nat.and_xor_distrib_right, Nat.and_xor_distrib_right, Nat.and_assoc]
  rfl

/-- One iteration of the source's inner CRC loop agrees with one step of
the spec's bit-at-a-time description applied to the low bit. -/
theorem crc8Byte_step_eq (crc byte : Nat) :
    (if (crc ^^^ byte) &&& 0x01 ≠ 0 then (crc >>> 1) ^^^ 0x8C else crc >>> 1) =
      crc8SpecStep crc (byte &&& 1) := by
  rw [crc8SpecStep, ← and_one_xor_and_one]
  have h : ((crc ^^^ byte) &&& 1 ≠ 0) ↔ ((crc ^^^ byte) &&& 1 = 1) := by
    rw [Nat.and_one_is_mod]
    omega
  simp only [h]

/-- The inner CRC loop over `n` iterations equals the spec's fold over
the `n` lowest bits, least-significant first. -/
theorem crc8Byte_eq_bits : ∀ n crc byte : Nat,
    crc8Byte n crc byte =
      ((List.range n).map fun i => (byte >>> i) &&& 1).foldl
        crc8SpecStep crc := by
  intro n
  induction n with
  | zero => intro crc byte; rfl
  | succ m ih =>
    intro crc byte
    have hfun : ((fun i => (byte >>> i) &&& 1) ∘ Nat.succ) =
        (fun i => ((byte >>> 1) >>> i) &&& 1) := by
      funext i
      simp only [Function.comp_apply, ← Nat.shiftRight_add,
        Nat.succ_eq_add_one, Nat.add_comm]
    simp only [crc8Byte]
    rw [List.range_succ_eq_map, List.map_cons, List.foldl_cons,
      List.map_map, hfun, ← ih, Nat.shiftRight_zero, ← crc8Byte_step_eq]

/-! Claim theorems. -/

/-- Claim C2: `_crc8` computes exactly the reference CRC-8 — accumulator
starting at 0, bits consumed least-significant-first, right shift with a
conditional XOR of 0x8C driven by the low bit of (accumulator XOR current
bit). -/
theorem C2_crc8_matches_reference (data : List Nat) :
    crc8 data = crc8Spec data := by
  have h : (fun crc byte => crc8Byte 8 crc byte) =
      (fun crc byte => (bitsLSBFirst byte).foldl crc8SpecStep crc) := by
    funext crc byte
    rw [crc8Byte_eq_bits 8 crc byte, bitsLSBFirst]
  rw [crc8, crc8Spec, h]

/-- Claim C1: for every payload of length at most 255 whose entries are
bytes, feeding the exact output of `sendMsg` into a freshly constructed
receiver and running `update` enqueues exactly that payload, `update`
reports a packet ready, the error counter stays at its initial value, and
`getPacket` returns the payload unchanged. -/
theorem C1_round_trip (t : Nat) (payload : List Nat)
    (hlen : payload.length ≤ 255) (hb : ∀ b ∈ payload, b < 256) :
    (update t initReceiver (sendMsg payload)).1.packets = [payload] ∧
    (update t initReceiver (sendMsg payload)).2 = true ∧
    (update t initReceiver (sendMsg payload)).1.errorCount =
      initReceiver.errorCount ∧
    (getPacket (update t initReceiver (sendMsg payload)).1).1 =
      some payload := by
  have h := processBytes_sendMsg t initReceiver payload hlen hb
  simp only [update, available, getPacket]
  rw [h]
  simp [initReceiver]

/-- Witness for C1 at the concrete payload `[0, 1, 255]`. -/
theorem C1_round_trip_witness :
    (update 0 initReceiver (sendMsg [0, 1, 255])).1.packets = [[0, 1, 255]] ∧
    (update 0 initReceiver (sendMsg [0, 1, 255])).2 = true ∧
    (update 0 initReceiver (sendMsg [0, 1, 255])).1.errorCount =
      initReceiver.errorCount ∧
    (getPacket (update 0 initReceiver (sendMsg [0, 1, 255])).1).1 =
      some [0, 1, 255] :=
  C1_round_trip 0 [0, 1, 255] (by decide) (by decide)

/-- The nibble-encoded image of a payload occupies two wire bytes per
payload byte. -/
theorem flatten_map_sendComplemented_length (payload : List Nat) :
    ((payload.map sendComplemented).flatten).length = 2 * payload.length := by
  induction payload with
  | nil => rfl
  | cons b rest ih =>
    rw [List.map_cons, List.flatten_cons, List.length_append, ih,
      sendComplemented_eq]
    simp only [List.length_cons, List.length_nil]
    omega

/-- Claim C4: `sendMsg` writes exactly the raw start marker, the two
nibble-encoded wire bytes of each payload byte in order, the raw end
marker, and the two nibble-encoded wire bytes of the payload's CRC-8 —
1 + 2·len + 1 + 2 bytes in total and nothing else. -/
theorem C4_wire_format (payload : List Nat) (hlen : payload.length ≤ 255) :
    sendMsg payload =
      [STX] ++ (payload.map sendComplemented).flatten ++ [ETX] ++
        sendComplemented (crc8 payload) ∧
    (sendMsg payload).length = 1 + 2 * payload.length + 1 + 2 := by
  refine ⟨by simp [sendMsg], ?_⟩
  rw [sendMsg]
  simp only [List.length_cons, List.length_append,
    flatten_map_sendComplemented_length, sendComplemented_eq,
    List.length_nil]
  omega

/-- Witness for C4 at the concrete payload `[0xAB]`. -/
theorem C4_wire_format_witness :
    sendMsg [0xAB] =
      [STX] ++ ([0xAB].map sendComplemented).flatten ++ [ETX] ++
        sendComplemented (crc8 [0xAB]) ∧
    (sendMsg [0xAB]).length = 1 + 2 * [0xAB].length + 1 + 2 :=
  C4_wire_format [0xAB] (by decide)

set_option maxRecDepth 8192 in
/-- Claim C3: the nibble encoding's output alphabet is exactly the 16
listed wire bytes, none of which is a marker; each wire byte passes the
receiver's structural check and decodes back to the nibble that produced
it; and every other byte value below 256 (markers aside) fails the
structural check. -/
theorem C3_nibble_alphabet :
    (∀ b : Nat, b < 256 → ∀ w ∈ sendComplemented b, w ∈ wireAlphabet) ∧
    (∀ w ∈ wireAlphabet, w ≠ STX ∧ w ≠ ETX ∧
      (w >>> 4) = ((w &&& 0x0F) ^^^ 0x0F)) ∧
    (∀ n : Nat, n < 16 →
      ((n <<< 4) ||| (n ^^^ 0x0F)) ∈ wireAlphabet ∧
      (((n <<< 4) ||| (n ^^^ 0x0F)) >>> 4) = n) ∧
    (∀ b : Nat, b < 256 → b ∉ wireAlphabet → b ≠ 2 → b ≠ 3 →
      (b >>> 4) ≠ ((b &&& 0x0F) ^^^ 0x0F)) := by
  decide

/-- Claim C10: the byte sequence `[3, 0x0F, 0x0F]` contains no start
marker, yet a fresh receiver leaves the waiting state on the bare end
marker and ends up appending the empty packet to the completed-packet
queue. -/
theorem C10_etx_while_waiting :
    (2 : Nat) ∉ ([3, 0x0F, 0x0F] : List Nat) ∧
    (processBytes 0 initReceiver [3]).state = State.receiveCrc ∧
    (processBytes 0 initReceiver [3, 0x0F, 0x0F]).packets = [[]] ∧
    (getPacket (processBytes 0 initReceiver [3, 0x0F, 0x0F])).1 =
      some [] := by
  decide

/-- Claim C5, counterexample: a fresh receiver that processes only the
end marker — an input containing no start marker, so no packet has been
started — nevertheless leaves the waiting state. -/
theorem C5_counterexample :
    (2 : Nat) ∉ ([3] : List Nat) ∧
    (processBytes 0 initReceiver [3]).state ≠ State.waiting := by
  decide

/-- Claim C5, amended: after processing one byte the receiver is outside
the waiting state exactly when that byte opened packet reception — a
start marker, or an end marker arriving with no pending nibble (which
opens reception even from the waiting state, with no start marker
required) — or continued an already started packet without completing or
aborting it (a structurally valid non-marker byte that is a first nibble,
or a second data nibble with room in the buffer). -/
theorem C5_state_characterization (t : Nat) (s : Receiver) (b : Nat) :
    (processByte t s b).state ≠ State.waiting ↔
      (b = 2 ∨ (b = 3 ∧ s.firstNibble = none) ∨
       (b ≠ 2 ∧ b ≠ 3 ∧ s.state ≠ State.waiting ∧
        (b >>> 4) = ((b &&& 0x0F) ^^^ 0x0F) ∧
        (s.firstNibble = none ∨
         (s.state = State.receiveData ∧ s.data.length < 255)))) := by
  obtain ⟨d, st, fn, ec, pk, stt⟩ := s
  by_cases h2 : b = 2
  · subst h2
    rw [processByte_stx]
    simp
  by_cases h3 : b = 3
  · subst h3
    cases fn with
    | none => rw [processByte_etx_none]; simp
    | some n => rw [processByte_etx_pending]; simp
  by_cases hw : st = State.waiting
  · rw [processByte_waiting t _ b h2 h3 hw]
    simp [hw, h2, h3]
  by_cases hok : (b >>> 4) = ((b &&& 0x0F) ^^^ 0x0F)
  · cases fn with
    | none =>
      rw [processByte_nib1 t d st ec pk stt b h2 h3 hw hok]
      simp [h2, h3, hw, hok]
    | some n =>
      cases st with
      | waiting => exact absurd rfl hw
      | receiveData =>
        by_cases hlen : d.length < 255
        · rw [processByte_data_append t d n ec pk stt b h2 h3 hok hlen]
          simp [h2, h3, hok, hlen]
        · rw [processByte_overflow t d n ec pk stt b h2 h3 hok hlen]
          simp [h2, h3, hok, hlen]
      | receiveCrc =>
        by_cases hcrc : crc8 d = ((b >>> 4) ||| (n <<< 4))
        · rw [processByte_crc_ok t d n ec pk stt b h2 h3 hok hcrc]
          simp [h2, h3]
        · rw [processByte_crc_bad t d n ec pk stt b h2 h3 hok hcrc]
          simp [h2, h3]
  · rw [processByte_invalid t d st fn ec pk stt b h2 h3 hw hok]
    simp [h2, h3, hok]

/-- Claim C6, counterexample: in `receiveCrc` with buffer `[1]`, feeding
the correct encoded CRC enqueues the packet but does not clear the
payload buffer — the buffer still holds `[1]` afterwards, so the working
buffers are not fully reset on the success path. -/
theorem C6_counterexample :
    ((processBytes 0 ⟨[1], State.receiveCrc, none, 0, [], none⟩
        (sendComplemented (crc8 [1]))).packets = [[1]]) ∧
    ((processBytes 0 ⟨[1], State.receiveCrc, none, 0, [], none⟩
        (sendComplemented (crc8 [1]))).data ≠ []) := by
  decide

/-- Claim C6, amended: when the receiver is in `receiveCrc` holding a
pending nibble and the completing wire byte assembles to the CRC-8 of
the buffer, the payload is appended to the completed-packet queue, the
pending-nibble slot is cleared, the state returns to waiting and the
error counter is not incremented — but the payload buffer is not
cleared; it keeps the payload until the next reset. -/
theorem C6_crc_match (t : Nat) (s : Receiver) (b n : Nat)
    (hst : s.state = State.receiveCrc) (hfn : s.firstNibble = some n)
    (hb2 : b ≠ 2) (hb3 : b ≠ 3)
    (hok : (b >>> 4) = ((b &&& 0x0F) ^^^ 0x0F))
    (hcrc : crc8 s.data = ((b >>> 4) ||| (n <<< 4))) :
    processByte t s b =
      { s with firstNibble := none, state := State.waiting,
               packets := s.packets ++ [s.data] } := by
  obtain ⟨d, st, fn, ec, pk, stt⟩ := s
  dsimp only at hst hfn hcrc
  subst hst
  subst hfn
  exact processByte_crc_ok t d n ec pk stt b hb2 hb3 hok hcrc

/-- Witness for C6 at the concrete state with buffer `[1]`, pending high
CRC nibble, and the encoded low CRC nibble arriving. -/
theorem C6_crc_match_witness :
    processByte 0 ⟨[1], State.receiveCrc, some (crc8 [1] >>> 4), 5, [], none⟩
        (((crc8 [1] &&& 0x0F) <<< 4) ||| ((crc8 [1] &&& 0x0F) ^^^ 0x0F)) =
      ⟨[1], State.waiting, none, 5, [[1]], none⟩ := by
  have h := C6_crc_match 0
    ⟨[1], State.receiveCrc, some (crc8 [1] >>> 4), 5, [], none⟩
    (((crc8 [1] &&& 0x0F) <<< 4) ||| ((crc8 [1] &&& 0x0F) ^^^ 0x0F))
    (crc8 [1] >>> 4) rfl rfl (by decide) (by decide) (by decide) (by decide)
  simpa using h

/-- Claim C7: a spurious start marker processed while a packet is in
progress increments the error counter exactly once and discards the
in-progress buffer, and a well-formed packet following on the stream is
still received and enqueued. -/
theorem C7_resync (t : Nat) (s : Receiver) (hs : s.state ≠ State.waiting)
    (payload : List Nat) (hlen : payload.length ≤ 255)
    (hb : ∀ b ∈ payload, b < 256) :
    (processByte t s 2).errorCount = s.errorCount + 1 ∧
    (processByte t s 2).data = [] ∧
    (processBytes t (processByte t s 2) (sendMsg payload)).packets =
      s.packets ++ [payload] := by
  obtain ⟨d, st, fn, ec, pk, stt⟩ := s
  dsimp only at hs ⊢
  rw [processByte_stx]
  refine ⟨?_, rfl, ?_⟩
  · dsimp only
    rw [if_neg hs]
  · rw [processBytes_sendMsg t _ payload hlen hb]

/-- Witness for C7: spurious start marker arriving in `receiveData` with
buffer `[5]`, followed by the wire image of the payload `[9]`. -/
theorem C7_resync_witness :
    (processByte 0 ⟨[5], State.receiveData, none, 0, [], none⟩ 2).errorCount =
      0 + 1 ∧
    (processByte 0 ⟨[5], State.receiveData, none, 0, [], none⟩ 2).data = [] ∧
    (processBytes 0 (processByte 0 ⟨[5], State.receiveData, none, 0, [], none⟩ 2)
        (sendMsg [9])).packets = [] ++ [[9]] :=
  C7_resync 0 ⟨[5], State.receiveData, none, 0, [], none⟩ (by decide) [9]
    (by decide) (by decide)

/-- One processed byte keeps the payload buffer within 255 bytes. -/
theorem processByte_len (t : Nat) (s : Receiver) (b : Nat)
    (h : s.data.length ≤ 255) : (processByte t s b).data.length ≤ 255 := by
  obtain ⟨d, st, fn, ec, pk, stt⟩ := s
  dsimp only at h
  cases fn <;>
    · simp only [processByte, reset, MAX_LENGTH]
      split_ifs <;> simp_all <;> omega

/-- Any processed byte sequence keeps the payload buffer within 255
bytes. -/
theorem processBytes_len (t : Nat) (bs : List Nat) : ∀ s : Receiver,
    s.data.length ≤ 255 → (processBytes t s bs).data.length ≤ 255 := by
  induction bs with
  | nil => intro s h; exact h
  | cons b rest ih =>
    intro s h
    rw [processBytes, List.foldl_cons]
    exact ih (processByte t s b) (processByte_len t s b h)

/-- Processing the two wire bytes of one data byte while in
`receiveData` with no pending nibble and a full buffer is the overflow
error: counter incremented, buffer discarded, back to waiting. -/
theorem processPair_overflow (t b : Nat) (hb : b < 256) (d : List Nat)
    (hd : ¬ d.length < 255) (ec : Nat) (pk : List (List Nat))
    (stt : Option Nat) :
    processBytes t ⟨d, State.receiveData, none, ec, pk, stt⟩
        (sendComplemented b) =
      ⟨[], State.waiting, none, ec + 1, pk, stt⟩ := by
  obtain ⟨hhi, hlo, hjoin⟩ := byte_split b hb
  obtain ⟨h2a, h3a, hra, hca⟩ := encNib_facts (b >>> 4) hhi
  obtain ⟨h2b, h3b, hrb, hcb⟩ := encNib_facts (b &&& 0x0F) hlo
  rw [sendComplemented_eq]
  show processByte t (processByte t ⟨d, State.receiveData, none, ec, pk, stt⟩
      (((b >>> 4) <<< 4) ||| ((b >>> 4) ^^^ 0x0F)))
      (((b &&& 0x0F) <<< 4) ||| ((b &&& 0x0F) ^^^ 0x0F)) = _
  rw [processByte_nib1 t d State.receiveData ec pk stt _ h2a h3a
    (by simp) (by rw [hra, hca]), hra]
  rw [processByte_overflow t d (b >>> 4) ec pk stt _ h2b h3b
    (by rw [hrb, hcb]) hd]

/-- Claim C8: in every receiver state reachable from construction the
payload buffer holds at most 255 bytes, and a stream with valid framing
that carries 256 data bytes before any end marker ends in the overflow
error: one error counted, the in-progress packet discarded, the receiver
back in waiting. -/
theorem C8_buffer_bound (t : Nat) (bs : List Nat) (payload : List Nat)
    (hlen : payload.length = 256) (hb : ∀ b ∈ payload, b < 256) :
    (processBytes t initReceiver bs).data.length ≤ 255 ∧
    processBytes t initReceiver
        (2 :: (payload.map sendComplemented).flatten) =
      ⟨[], State.waiting, none, 1, [], some t⟩ := by
  constructor
  · exact processBytes_len t bs initReceiver (by simp [initReceiver])
  · have hne : payload ≠ [] := by
      intro h
      rw [h] at hlen
      simp at hlen
    have hfront : payload.dropLast.length = 255 := by
      rw [List.length_dropLast, hlen]
    have hlast : payload.getLast hne < 256 := hb _ (List.getLast_mem hne)
    have h0 : processBytes t initReceiver
        (2 :: (payload.map sendComplemented).flatten) =
      processBytes t (processByte t initReceiver 2)
        ((payload.map sendComplemented).flatten) := by
      rw [processBytes, List.foldl_cons]
      rfl
    rw [h0]
    have h1 : processByte t initReceiver 2 =
        ⟨[], State.receiveData, none, 0, [], some t⟩ := by
      show processByte t ⟨[], State.waiting, none, 0, [], none⟩ 2 = _
      rw [processByte_stx]
      simp
    rw [h1]
    conv_lhs => rw [← List.dropLast_append_getLast hne]
    rw [List.map_append, List.flatten_append, processBytes_append]
    rw [processBytes_dataPhase t payload.dropLast [] 0 [] (some t)
      (by rw [hfront]; simp) (fun x hx => hb x ((List.dropLast_sublist payload).subset hx))]
    simp only [List.map_cons, List.map_nil, List.flatten_cons,
      List.flatten_nil, List.append_nil, List.nil_append]
    rw [processPair_overflow t (payload.getLast hne) hlast payload.dropLast
      (by rw [hfront]; omega) 0 [] (some t)]

/-- Witness for C8 with the concrete history `[2, 3, 0x0F]` and the
256-byte payload of sevens. -/
theorem C8_buffer_bound_witness :
    (processBytes 0 initReceiver [2, 3, 0x0F]).data.length ≤ 255 ∧
    processBytes 0 initReceiver
        (2 :: ((List.replicate 256 7).map sendComplemented).flatten) =
      ⟨[], State.waiting, none, 1, [], some 0⟩ :=
  C8_buffer_bound 0 [2, 3, 0x0F] (List.replicate 256 7)
    (by rw [List.length_replicate])
    (by intro b hb; rw [List.eq_of_mem_replicate hb]; omega)

/-- One processed byte never decreases the error counter. -/
theorem processByte_ec_mono (t : Nat) (s : Receiver) (b : Nat) :
    s.errorCount ≤ (processByte t s b).errorCount := by
  obtain ⟨d, st, fn, ec, pk, stt⟩ := s
  cases fn <;>
    · simp only [processByte, reset, MAX_LENGTH]
      split_ifs <;> simp

/-- No processed byte sequence ever decreases the error counter. -/
theorem processBytes_ec_mono (t : Nat) (bs : List Nat) : ∀ s : Receiver,
    s.errorCount ≤ (processBytes t s bs).errorCount := by
  induction bs with
  | nil => intro s; exact le_refl _
  | cons b rest ih =>
    intro s
    rw [processBytes, List.foldl_cons]
    exact le_trans (processByte_ec_mono t s b) (ih (processByte t s b))

/-- Claim C9: `reset` clears the payload buffer and the pending-nibble
slot and returns the state to waiting, while leaving the error counter,
the completed-packet queue and the last-packet-start timestamp untouched;
and no receive processing or packet retrieval ever decreases the error
counter. -/
theorem C9_reset_frame (s : Receiver) (t : Nat) (bs : List Nat) :
    (reset s).data = [] ∧ (reset s).firstNibble = none ∧
    (reset s).state = State.waiting ∧
    (reset s).errorCount = s.errorCount ∧
    (reset s).packets = s.packets ∧
    (reset s).startTime = s.startTime ∧
    s.errorCount ≤ (processBytes t s bs).errorCount ∧
    ((getPacket s).2).errorCount = s.errorCount :=
  ⟨rfl, rfl, rfl, rfl, rfl, rfl, processBytes_ec_mono t bs s, rfl⟩

end RS485
